import Mathlib

/-!
Verification of the Bluetooth audio codec negotiation core described by the
design document, against the enumeration in
`src/java.desktop/unix/native/libpipewire/include/spa/param/bluetooth/audio.h`.
The enumeration is the only code present; the registry, parser, selector,
ranking engine and orchestrator are modelled from the contracts of the spec.
-/

deriving instance DecidableEq for Except

namespace BtCodec

/-- The enumeration `enum spa_bluetooth_audio_codec` from `audio.h`,
one constructor per enumerator, in declaration order. -/
inductive spa_bluetooth_audio_codec where
  | START
  | SBC
  | SBC_XQ
  | MPEG
  | AAC
  | APTX
  | APTX_HD
  | LDAC
  | APTX_LL
  | APTX_LL_DUPLEX
  | FASTSTREAM
  | FASTSTREAM_DUPLEX
  | LC3PLUS_HR
  | OPUS_05
  | OPUS_05_51
  | OPUS_05_71
  | OPUS_05_DUPLEX
  | OPUS_05_PRO
  | CVSD
  | MSBC
  | LC3
  deriving DecidableEq

/-- Numeric value of each enumerator, following C enum value assignment:
`START` opens at 0, each enumerator is previous + 1, with the explicit
assignments `CVSD = 0x100` and `LC3 = 0x200` restarting the count. -/
def codecValue : spa_bluetooth_audio_codec → Nat
  | .START => 0
  | .SBC => 1
  | .SBC_XQ => 2
  | .MPEG => 3
  | .AAC => 4
  | .APTX => 5
  | .APTX_HD => 6
  | .LDAC => 7
  | .APTX_LL => 8
  | .APTX_LL_DUPLEX => 9
  | .FASTSTREAM => 10
  | .FASTSTREAM_DUPLEX => 11
  | .LC3PLUS_HR => 12
  | .OPUS_05 => 13
  | .OPUS_05_51 => 14
  | .OPUS_05_71 => 15
  | .OPUS_05_DUPLEX => 16
  | .OPUS_05_PRO => 17
  | .CVSD => 0x100
  | .MSBC => 0x101
  | .LC3 => 0x200

/-- The three profile families named by the block comments in `audio.h`. -/
inductive ProfileFamily where
  | A2DP
  | HFP
  | BAP
  deriving DecidableEq

/-- Family block each enumerator is declared under, read off the comments
`/* A2DP */`, `/* HFP */`, `/* BAP */` in `audio.h`; the sentinel `START`
precedes every block and so belongs to none. -/
def declaredFamily : spa_bluetooth_audio_codec → Option ProfileFamily
  | .START => none
  | .SBC => some .A2DP
  | .SBC_XQ => some .A2DP
  | .MPEG => some .A2DP
  | .AAC => some .A2DP
  | .APTX => some .A2DP
  | .APTX_HD => some .A2DP
  | .LDAC => some .A2DP
  | .APTX_LL => some .A2DP
  | .APTX_LL_DUPLEX => some .A2DP
  | .FASTSTREAM => some .A2DP
  | .FASTSTREAM_DUPLEX => some .A2DP
  | .LC3PLUS_HR => some .A2DP
  | .OPUS_05 => some .A2DP
  | .OPUS_05_51 => some .A2DP
  | .OPUS_05_71 => some .A2DP
  | .OPUS_05_DUPLEX => some .A2DP
  | .OPUS_05_PRO => some .A2DP
  | .CVSD => some .HFP
  | .MSBC => some .HFP
  | .LC3 => some .BAP

/-- All enumerators of the enumeration, in declaration order. -/
def allCodecs : List spa_bluetooth_audio_codec :=
  [.START, .SBC, .SBC_XQ, .MPEG, .AAC, .APTX, .APTX_HD, .LDAC, .APTX_LL,
   .APTX_LL_DUPLEX, .FASTSTREAM, .FASTSTREAM_DUPLEX, .LC3PLUS_HR,
   .OPUS_05, .OPUS_05_51, .OPUS_05_71, .OPUS_05_DUPLEX, .OPUS_05_PRO,
   .CVSD, .MSBC, .LC3]

/-- Error taxonomy of section 7 of the design document. -/
inductive CodecError where
  | UnknownCodec
  | MalformedCapability
  | EmptyCapabilitySet
  | InvertedRange
  | NoCompatibleValue
  deriving DecidableEq

/-- Modelled from the spec: `family_of(CodecId) -> ProfileFamily`, the
pure total lookup of the Codec Identity Registry over the closed id set; the
actual registry code is not under src (only the enumeration is), so this
follows the wording of the spec: defined ids map to the family of their numeric
block (A2DP ids 1..17, HFP ids 0x100..0x101, BAP id 0x200) and every other
value, including the sentinel 0 and the reserved gaps between blocks,
fails with `UnknownCodec`. -/
def family_of (n : Nat) : Except CodecError ProfileFamily :=
  if 1 ≤ n ∧ n ≤ 17 then .ok .A2DP
  else if n = 0x100 ∨ n = 0x101 then .ok .HFP
  else if n = 0x200 then .ok .BAP
  else .error .UnknownCodec

/-- Schema default strategy for a continuous-range field, as declared by
the schema of the codec (section 4.3 of the design document). -/
inductive Strategy where
  | MAXIMIZE
  | MINIMIZE
  | FIXED
  deriving DecidableEq

/-- Modelled from the spec: the shape of one field of the
configuration schema of a codec — either a bitmask field carrying its fixed per-field
preference order over bit positions, or a continuous numeric range field
carrying its default strategy and (for `FIXED`) its schema-declared value. -/
inductive FieldSchema where
  | bitmask (pref : List Nat)
  | range (strat : Strategy) (fixedVal : Nat)
  deriving DecidableEq

/-- Modelled from the spec: `SchemaDescriptor` — the fields (in
schema-declared resolution order) of the configuration schema of a codec. -/
structure SchemaDescriptor where
  fields : List FieldSchema
  deriving DecidableEq

/-- Modelled from the spec: the SBC schema — supported sample rates as a
bitmask (preference 48kHz > 44.1kHz > 32kHz > 16kHz as bit positions
3,2,1,0), channel modes as a bitmask (stereo bit 1 preferred over mono
bit 0), and the bitpool as a continuous range with `MAXIMIZE` strategy. -/
def sbcSchema : SchemaDescriptor :=
  { fields := [.bitmask [3, 2, 1, 0], .bitmask [1, 0], .range .MAXIMIZE 0] }

/-- Modelled from the spec: a generic A2DP codec schema with sample-rate
and channel-mode bitmask fields (the spec fixes only the SBC layout; other
A2DP codecs get the common two-bitmask shape). -/
def genericA2dpSchema : SchemaDescriptor :=
  { fields := [.bitmask [3, 2, 1, 0], .bitmask [1, 0]] }

/-- Modelled from the spec: HFP codec schema — a single continuous
sample-rate range with the `FIXED` strategy (CVSD and mSBC run at a
schema-fixed narrowband/wideband rate). -/
def hfpSchema (fixedRate : Nat) : SchemaDescriptor :=
  { fields := [.range .FIXED fixedRate] }

/-- Modelled from the spec: BAP LC3 schema — sample-rate bitmask plus a
frame-duration range resolved with the `MINIMIZE` strategy (lowest
latency within the advertised window). -/
def bapSchema : SchemaDescriptor :=
  { fields := [.bitmask [4, 3, 2, 1, 0], .range .MINIMIZE 0] }

/-- Modelled from the spec: `schema_of(CodecId) -> SchemaDescriptor`, the
schema lookup of the registry, total over the same closed id set as
`family_of` and failing with `UnknownCodec` elsewhere. -/
def schema_of (n : Nat) : Except CodecError SchemaDescriptor :=
  if n = 1 then .ok sbcSchema
  else if 2 ≤ n ∧ n ≤ 17 then .ok genericA2dpSchema
  else if n = 0x100 then .ok (hfpSchema 8000)
  else if n = 0x101 then .ok (hfpSchema 16000)
  else if n = 0x200 then .ok bapSchema
  else .error .UnknownCodec

/-- Modelled from the spec: one capability record advertised by the remote
peer for one codec — (profile, CodecId, raw capability bytes). -/
structure CapabilityRecord where
  profile : ProfileFamily
  codecId : Nat
  raw : List Nat
  deriving DecidableEq

/-- Modelled from the spec: one parsed capability field — a bitmask set of
supported bit positions (kept as the raw bitmask byte) or an advertised
min/max numeric range. -/
inductive CapField where
  | bitmaskSet (bits : Nat)
  | rangeCap (lo hi : Nat)
  deriving DecidableEq

/-- Modelled from the spec: `ParsedCapability` — the structured, per-field
capability set decoded from the raw bytes of exactly one CapabilityRecord. -/
structure ParsedCapability where
  codecId : Nat
  fields : List CapField
  deriving DecidableEq

/-- Byte size of one schema field in the wire layout: a bitmask field is
one byte, a min/max range field is two bytes. -/
def fieldSize : FieldSchema → Nat
  | .bitmask _ => 1
  | .range _ _ => 2

/-- Expected total blob length for a schema: the sum of its field sizes. -/
def expectedLength (s : SchemaDescriptor) : Nat :=
  (s.fields.map fieldSize).sum

/-- Decode the blob bytes into capability fields, consuming one byte per
bitmask field and two (min, then max) per range field. -/
def decodeFields : List FieldSchema → List Nat → List CapField
  | [], _ => []
  | .bitmask _ :: rest, b :: bs => .bitmaskSet b :: decodeFields rest bs
  | .range _ _ :: rest, lo :: hi :: bs => .rangeCap lo hi :: decodeFields rest bs
  | _ :: _, _ => []

/-- A decoded bitmask field advertising no supported value at all. -/
def isEmptyBitmask : CapField → Bool
  | .bitmaskSet bits => bits == 0
  | .rangeCap _ _ => false

/-- A decoded numeric range field with min greater than max. -/
def isInvertedRange : CapField → Bool
  | .bitmaskSet _ => false
  | .rangeCap lo hi => hi < lo

/-- Modelled from the spec: `parse(CodecId, raw_bytes) -> ParsedCapability`,
the Capability Parser. Validates, in the order given by the spec: (1) blob length
matches the expected length of the schema, else `MalformedCapability`;
(2) every bitmask field is non-empty, else `EmptyCapabilitySet`;
(3) every numeric range has min ≤ max, else `InvertedRange`. Pure. -/
def parse (cid : Nat) (blob : List Nat) : Except CodecError ParsedCapability :=
  match schema_of cid with
  | .error e => .error e
  | .ok sch =>
    if blob.length ≠ expectedLength sch then .error .MalformedCapability
    else
      let fs := decodeFields sch.fields blob
      if fs.any isEmptyBitmask then .error .EmptyCapabilitySet
      else if fs.any isInvertedRange then .error .InvertedRange
      else .ok ⟨cid, fs⟩

/-- Modelled from the spec: the per-field local policy constraint for one
schema field — the locally supported bitmask, or the local min/max bounds
for a continuous range. -/
inductive FieldPolicy where
  | bitmaskPol (localBits : Nat)
  | rangePol (localLo localHi : Nat)
  deriving DecidableEq

/-- Modelled from the spec: the local policy object — preferred codec order,
profile-family priority override, and the per-codec per-field local
constraints used by the Configuration Selector. -/
structure LocalPolicy where
  preferred : List Nat
  profilePriority : List ProfileFamily
  fieldPols : Nat → List FieldPolicy

/-- Modelled from the spec: `Configuration` — one concrete fully-resolved
parameter set (one value per schema field) for one CodecId. -/
structure Configuration where
  codecId : Nat
  values : List Nat
  deriving DecidableEq

/-- Modelled from the spec: resolve one field. Bitmask: the first value of
the fixed schema preference order present in the intersection of the
remotely advertised set and the local set. Range with `MAXIMIZE`: the
maximum within min(remote max, local max), bounded below by the remotely
advertised minimum; `MINIMIZE`: dually the minimum within
max(remote min, local min) bounded above by the remote maximum;
`FIXED`: the schema-declared value if inside both the remote and the
local bounds. Fails with `NoCompatibleValue` when the intersection for
the field is empty (or the shapes disagree). -/
def selectField (fs : FieldSchema) (cf : CapField) (fp : FieldPolicy) :
    Except CodecError Nat :=
  match fs, cf, fp with
  | .bitmask pref, .bitmaskSet bits, .bitmaskPol lb =>
      match pref.find? (fun v => (bits &&& lb).testBit v) with
      | some v => .ok v
      | none => .error .NoCompatibleValue
  | .range strat fixedVal, .rangeCap lo hi, .rangePol llo lhi =>
      match strat with
      | .MAXIMIZE =>
          if lo ≤ min hi lhi then .ok (min hi lhi)
          else .error .NoCompatibleValue
      | .MINIMIZE =>
          if max lo llo ≤ hi then .ok (max lo llo)
          else .error .NoCompatibleValue
      | .FIXED =>
          if lo ≤ fixedVal ∧ fixedVal ≤ hi ∧ llo ≤ fixedVal ∧ fixedVal ≤ lhi
          then .ok fixedVal
          else .error .NoCompatibleValue
  | _, _, _ => .error .NoCompatibleValue

/-- Resolve all fields in schema-declared order; any field failure fails
the whole selection, and a shape/length disagreement between schema,
capability and policy is a `NoCompatibleValue` failure. -/
def resolveFields : List FieldSchema → List CapField → List FieldPolicy →
    Except CodecError (List Nat)
  | [], [], [] => .ok []
  | fs :: fss, cf :: cfs, fp :: fps =>
      match selectField fs cf fp with
      | .error e => .error e
      | .ok v =>
        match resolveFields fss cfs fps with
        | .error e => .error e
        | .ok vs => .ok (v :: vs)
  | _, _, _ => .error .NoCompatibleValue

/-- Modelled from the spec: `select(ParsedCapability, LocalPolicy) ->
Configuration | SelectionFailure`, the Configuration Selector — looks up
the schema of the codec and resolves every field within the advertised
capability under the local policy. -/
def select (cap : ParsedCapability) (p : LocalPolicy) :
    Except CodecError Configuration :=
  match schema_of cap.codecId with
  | .error e => .error e
  | .ok sch =>
    match resolveFields sch.fields cap.fields (p.fieldPols cap.codecId) with
    | .error e => .error e
    | .ok vs => .ok ⟨cap.codecId, vs⟩

/-- Membership of a concrete value in the bounds advertised by one
capability field: a set bit for a bitmask field, min ≤ v ≤ max for a
range field. -/
def fieldValueIn : CapField → Nat → Prop
  | .bitmaskSet bits, v => bits.testBit v = true
  | .rangeCap lo hi, v => lo ≤ v ∧ v ≤ hi

/-- Modelled from the spec: the default profile-family priority tier,
BAP > A2DP > HFP (lower number = higher priority). -/
def defaultFamRank : ProfileFamily → Nat
  | .BAP => 0
  | .A2DP => 1
  | .HFP => 2

/-- Modelled from the spec: ranking component (2) — profile family
priority, overridable by the policy list `profile_priority`; families
absent from the override list come after the listed ones in default
order, and a candidate whose id has no family comes last. -/
def famRank (p : LocalPolicy) (cid : Nat) : Nat :=
  match family_of cid with
  | .ok f =>
      if f ∈ p.profilePriority then p.profilePriority.indexOf f
      else p.profilePriority.length + defaultFamRank f
  | .error _ => p.profilePriority.length + 3

/-- Modelled from the spec: ranking component (3) — the static per-codec
quality tier baked into the Identity Registry (lower = better), following
the spec ordering LDAC/aptX-HD/Opus-high > AAC/SBC-XQ > SBC > CVSD. -/
def qualityRank (n : Nat) : Nat :=
  if n = 7 ∨ n = 6 ∨ n = 15 ∨ n = 16 ∨ n = 17 then 0
  else if n = 4 ∨ n = 2 then 1
  else if n = 0x200 ∨ n = 12 ∨ n = 13 ∨ n = 14 then 2
  else if n = 3 ∨ n = 5 ∨ n = 8 ∨ n = 9 ∨ n = 10 ∨ n = 11 then 3
  else if n = 1 then 4
  else if n = 0x101 then 5
  else if n = 0x100 then 6
  else 7

/-- Modelled from the spec: ranking component (1) — position in the
explicit preferred-codec list of the policy; a codec not in the list ranks
after every listed one (`indexOf` returns the list length then). -/
def prefPos (p : LocalPolicy) (cid : Nat) : Nat :=
  p.preferred.indexOf cid

/-- The full ordering key of one ranked candidate, descending priority:
preference-list position, family priority, static quality tier, and the
CodecId numeric value as the final tie-break. -/
def rankKey (p : LocalPolicy) (c : Nat × ParsedCapability) :
    Nat × Nat × Nat × Nat :=
  (prefPos p c.1, famRank p c.1, qualityRank c.1, c.1)

/-- Lexicographic order on the 4-component ranking key. -/
def lexLe4 (x y : Nat × Nat × Nat × Nat) : Prop :=
  x.1 < y.1 ∨ (x.1 = y.1 ∧
    (x.2.1 < y.2.1 ∨ (x.2.1 = y.2.1 ∧
      (x.2.2.1 < y.2.2.1 ∨ (x.2.2.1 = y.2.2.1 ∧ x.2.2.2 ≤ y.2.2.2)))))

instance (x y : Nat × Nat × Nat × Nat) : Decidable (lexLe4 x y) := by
  unfold lexLe4
  exact inferInstance

/-- Modelled from the spec: the ordering of the Codec Ranking Engine on parsed
candidates — compare full ranking keys lexicographically. -/
def rankRel (p : LocalPolicy) (a b : Nat × ParsedCapability) : Prop :=
  lexLe4 (rankKey p a) (rankKey p b)

instance (p : LocalPolicy) : DecidableRel (rankRel p) := fun a b => by
  unfold rankRel
  exact inferInstance

/-- Modelled from the spec: `rank` over (CodecId, ParsedCapability)
candidates — a stable sort of the candidate list under `rankRel`. -/
def rankPairs (p : LocalPolicy) (l : List (Nat × ParsedCapability)) :
    List (Nat × ParsedCapability) :=
  l.insertionSort (rankRel p)

/-- Modelled from the spec: `rank(candidates) -> ordered sequence of
CodecId` — the ids of the sorted candidate list. -/
def rank (p : LocalPolicy) (l : List (Nat × ParsedCapability)) : List Nat :=
  (rankPairs p l).map (fun c => c.1)

/-- Session-terminal failure reasons (section 4.5). -/
inductive FailReason where
  | NoCandidates
  | AllCandidatesIncompatible
  deriving DecidableEq

/-- Terminal outcome of one negotiation session: a committed
Configuration or an aggregate failure reason. -/
inductive SessionOutcome where
  | Committed (cfg : Configuration)
  | Failed (r : FailReason)
  deriving DecidableEq

/-- Modelled from the spec: the input of the `Ranking` phase of the Orchestrator —
parse each received record, dropping (not failing on) every record whose
parse fails. -/
def parsedCandidates (records : List CapabilityRecord) :
    List (Nat × ParsedCapability) :=
  records.filterMap (fun r =>
    match parse r.codecId r.raw with
    | .ok pc => some (r.codecId, pc)
    | .error _ => none)

/-- Modelled from the spec: the `Selecting` phase of the Orchestrator — try
selection on each ranked candidate in order, stopping at the first
success; per-candidate failures are absorbed. -/
def selectFirst (p : LocalPolicy) :
    List (Nat × ParsedCapability) → Option Configuration
  | [] => none
  | c :: rest =>
    match select c.2 p with
    | .ok cfg => some cfg
    | .error _ => selectFirst p rest

/-- Modelled from the spec: the Negotiation Orchestrator end-to-end —
parse all received records, rank the surviving candidates, select the
first compatible one; `Failed NoCandidates` when the candidate list is
empty after parsing, `Failed AllCandidatesIncompatible` when every
ranked candidate fails selection. -/
def negotiate (p : LocalPolicy) (records : List CapabilityRecord) :
    SessionOutcome :=
  match parsedCandidates records with
  | [] => .Failed .NoCandidates
  | c :: cs =>
    match selectFirst p (rankPairs p (c :: cs)) with
    | some cfg => .Committed cfg
    | none => .Failed .AllCandidatesIncompatible

/-- A record whose raw bytes fail to parse contributes nothing to the
candidate list and hence leaves the negotiation outcome unchanged. -/
theorem negotiate_skip_of_parse_error (p : LocalPolicy) (r : CapabilityRecord)
    (rs : List CapabilityRecord) (e : CodecError)
    (h : parse r.codecId r.raw = .error e) :
    negotiate p (r :: rs) = negotiate p rs := by
  unfold negotiate
  have hc : parsedCandidates (r :: rs) = parsedCandidates rs := by
    unfold parsedCandidates
    simp [List.filterMap_cons, h]
  rw [hc]

/-- C1. The numeric value of every defined codec identifier lies in exactly one
profile-family range: A2DP strictly below 0x100, HFP in [0x100, 0x200),
BAP at or above 0x200, so the value alone determines the family. -/
theorem codec_value_range_determines_family (c : spa_bluetooth_audio_codec)
    (f : ProfileFamily) (h : declaredFamily c = some f) :
    (f = ProfileFamily.A2DP ↔ codecValue c < 0x100) ∧
    (f = ProfileFamily.HFP ↔ 0x100 ≤ codecValue c ∧ codecValue c < 0x200) ∧
    (f = ProfileFamily.BAP ↔ 0x200 ≤ codecValue c) := by
  cases c <;> cases f <;> revert h <;> decide

/-- Witness for C1 at the concrete enumerator LC3 (the BAP block). -/
theorem codec_value_range_determines_family_witness :
    declaredFamily .LC3 = some ProfileFamily.BAP ∧
    ((ProfileFamily.BAP = ProfileFamily.A2DP ↔ codecValue .LC3 < 0x100) ∧
     (ProfileFamily.BAP = ProfileFamily.HFP ↔
        0x100 ≤ codecValue .LC3 ∧ codecValue .LC3 < 0x200) ∧
     (ProfileFamily.BAP = ProfileFamily.BAP ↔ 0x200 ≤ codecValue .LC3)) :=
  ⟨by decide, codec_value_range_determines_family .LC3 ProfileFamily.BAP (by decide)⟩

/-- Whether `schema_of` succeeds on `n` with a non-empty field list. -/
def schemaNonempty (n : Nat) : Bool :=
  match schema_of n with
  | .ok sch => ! sch.fields.isEmpty
  | .error _ => false

/-- C2. The registry is total over the closed set of defined codec ids:
every enumerator with a declared family block gets exactly that family
from `family_of`, and a non-empty schema descriptor from `schema_of`. -/
theorem registry_total_on_defined_codecs (c : spa_bluetooth_audio_codec)
    (f : ProfileFamily) (h : declaredFamily c = some f) :
    family_of (codecValue c) = .ok f ∧
    schemaNonempty (codecValue c) = true := by
  cases c <;> cases f <;> revert h <;> decide

/-- Witness for C2 at the concrete enumerator SBC. -/
theorem registry_total_on_defined_codecs_witness :
    declaredFamily .SBC = some ProfileFamily.A2DP ∧
    (family_of (codecValue .SBC) = .ok ProfileFamily.A2DP ∧
     schemaNonempty (codecValue .SBC) = true) :=
  ⟨by decide, registry_total_on_defined_codecs .SBC ProfileFamily.A2DP (by decide)⟩

/-- C3. For every id outside all defined ranges — the reserved gaps
18..0xFF and 0x102..0x1FF and everything above 0x200 — `family_of` fails
with `UnknownCodec`, and a record carrying such an id is dropped without
affecting the rest of the negotiation session. -/
theorem family_of_unknown_outside_ranges (n : Nat)
    (h : (18 ≤ n ∧ n ≤ 0xFF) ∨ (0x102 ≤ n ∧ n ≤ 0x1FF) ∨ 0x200 < n)
    (p : LocalPolicy) (r : CapabilityRecord) (hr : r.codecId = n)
    (rs : List CapabilityRecord) :
    family_of n = .error .UnknownCodec ∧
    negotiate p (r :: rs) = negotiate p rs := by
  have h1 : ¬ (1 ≤ n ∧ n ≤ 17) := by omega
  have h2 : ¬ (n = 0x100 ∨ n = 0x101) := by omega
  have h3 : ¬ n = 0x200 := by omega
  have h4 : ¬ n = 1 := by omega
  have h5 : ¬ (2 ≤ n ∧ n ≤ 17) := by omega
  have h6 : ¬ n = 0x100 := by omega
  have h7 : ¬ n = 0x101 := by omega
  have hsch : schema_of n = .error .UnknownCodec := by
    simp [schema_of, h4, h5, h6, h7, h3]
  refine ⟨by simp [family_of, h1, h2, h3], ?_⟩
  apply negotiate_skip_of_parse_error p r rs .UnknownCodec
  rw [hr]
  simp [parse, hsch]

/-- A fixed concrete record with an id from the first reserved gap,
used in the C3 witness. -/
def gapRecord : CapabilityRecord :=
  { profile := .A2DP, codecId := 42, raw := [1, 2] }

/-- A fixed concrete local policy with no preferences and no per-field
constraints, used by witnesses. -/
def trivialPolicy : LocalPolicy :=
  { preferred := [], profilePriority := [], fieldPols := fun _ => [] }

/-- Witness for C3 at the concrete gap id 42. -/
theorem family_of_unknown_outside_ranges_witness :
    ((18 ≤ 42 ∧ 42 ≤ 0xFF) ∨ (0x102 ≤ 42 ∧ 42 ≤ 0x1FF) ∨ 0x200 < 42) ∧
    gapRecord.codecId = 42 ∧
    (family_of 42 = .error .UnknownCodec ∧
     negotiate trivialPolicy (gapRecord :: []) = negotiate trivialPolicy []) :=
  ⟨by decide, rfl,
   family_of_unknown_outside_ranges 42 (by decide) trivialPolicy gapRecord rfl []⟩

/-- C9. The enumerator START has value 0, belongs to no family block, and
is treated as outside all known ranges by the registry; the lowest real
codec id is 1 (SBC). -/
theorem start_is_sentinel_zero (c : spa_bluetooth_audio_codec)
    (h : c ≠ .START) :
    codecValue .START = 0 ∧
    declaredFamily .START = none ∧
    family_of 0 = .error .UnknownCodec ∧
    1 ≤ codecValue c ∧
    codecValue .SBC = 1 := by
  cases c <;> revert h <;> decide

/-- Witness for C9 at the concrete enumerator SBC. -/
theorem start_is_sentinel_zero_witness :
    (spa_bluetooth_audio_codec.SBC ≠ .START) ∧
    (codecValue .START = 0 ∧
     declaredFamily .START = none ∧
     family_of 0 = .error .UnknownCodec ∧
     1 ≤ codecValue .SBC ∧
     codecValue .SBC = 1) :=
  ⟨by decide, start_is_sentinel_zero .SBC (by decide)⟩

/-- C10. The enumerator list is complete, its values are exactly the
stated blocks in declaration order with no duplicates and no internal
gaps: A2DP 1..17, HFP 0x100..0x101, BAP 0x200 (plus the sentinel 0). -/
theorem enumerator_values_distinct_blocks :
    (∀ c : spa_bluetooth_audio_codec, c ∈ allCodecs) ∧
    allCodecs.map codecValue =
      [0, 1, 2, 3, 4, 5, 6, 7, 8, 9, 10, 11, 12, 13, 14, 15, 16, 17,
       0x100, 0x101, 0x200] ∧
    (allCodecs.map codecValue).Nodup ∧
    (allCodecs.filterMap (fun c =>
        if declaredFamily c = some ProfileFamily.A2DP
        then some (codecValue c) else none)) =
      [1, 2, 3, 4, 5, 6, 7, 8, 9, 10, 11, 12, 13, 14, 15, 16, 17] ∧
    (allCodecs.filterMap (fun c =>
        if declaredFamily c = some ProfileFamily.HFP
        then some (codecValue c) else none)) = [0x100, 0x101] ∧
    (allCodecs.filterMap (fun c =>
        if declaredFamily c = some ProfileFamily.BAP
        then some (codecValue c) else none)) = [0x200] := by
  refine ⟨fun c => by cases c <;> decide, by decide, by decide, by decide,
    by decide, by decide⟩

/-- C8. Parsing is idempotent/deterministic: two applications of `parse`
to the same CodecId and raw bytes yield equal ParsedCapability values. -/
theorem parse_idempotent_same_result (cid : Nat) (blob : List Nat)
    (pc1 pc2 : ParsedCapability)
    (h1 : parse cid blob = .ok pc1) (h2 : parse cid blob = .ok pc2) :
    pc1 = pc2 := by
  rw [h1] at h2
  injection h2

/-- The parsed capability of the concrete SBC blob [8, 2, 2, 53]:
48kHz bit set, stereo bit set, bitpool range 2..53. -/
def sbcCap : ParsedCapability :=
  { codecId := 1, fields := [.bitmaskSet 8, .bitmaskSet 2, .rangeCap 2 53] }

/-- Witness for C8 on the concrete SBC capability blob. -/
theorem parse_idempotent_same_result_witness :
    parse 1 [8, 2, 2, 53] = .ok sbcCap ∧ sbcCap = sbcCap :=
  ⟨rfl, parse_idempotent_same_result 1 [8, 2, 2, 53] sbcCap sbcCap rfl rfl⟩

/-- C6. Parse validation: a blob whose length is wrong for the schema of
its codec fails with `MalformedCapability`; with the right length, an empty
bitmask field fails with `EmptyCapabilitySet`, and otherwise an inverted
numeric range fails with `InvertedRange` (checks in the order given by the spec);
and any parse failure leaves the candidate state of the session and outcome
exactly as if the record had never arrived. -/
theorem parse_validation_errors (cid : Nat) (sch : SchemaDescriptor)
    (h : schema_of cid = .ok sch) (blob : List Nat) :
    (blob.length ≠ expectedLength sch →
      parse cid blob = .error .MalformedCapability) ∧
    (blob.length = expectedLength sch →
      (decodeFields sch.fields blob).any isEmptyBitmask = true →
      parse cid blob = .error .EmptyCapabilitySet) ∧
    (blob.length = expectedLength sch →
      (decodeFields sch.fields blob).any isEmptyBitmask = false →
      (decodeFields sch.fields blob).any isInvertedRange = true →
      parse cid blob = .error .InvertedRange) ∧
    (∀ e (p : LocalPolicy) (r : CapabilityRecord) rs,
      r.codecId = cid → r.raw = blob → parse cid blob = .error e →
      parsedCandidates (r :: rs) = parsedCandidates rs ∧
      negotiate p (r :: rs) = negotiate p rs) := by
  refine ⟨?_, ?_, ?_, ?_⟩
  · intro hl
    simp [parse, h, hl]
  · intro hl he
    simp [parse, h, hl, he]
  · intro hl he hi
    simp [parse, h, hl, he, hi]
  · intro e p r rs h1 h2 hf
    have hx : parse r.codecId r.raw = .error e := by rw [h1, h2]; exact hf
    refine ⟨?_, negotiate_skip_of_parse_error p r rs e hx⟩
    unfold parsedCandidates
    simp [List.filterMap_cons, hx]

/-- Witness for C6 at the concrete SBC schema and a blob whose first
bitmask field is empty. -/
theorem parse_validation_errors_witness :
    schema_of 1 = .ok sbcSchema ∧
    (([0, 2, 2, 53].length ≠ expectedLength sbcSchema →
       parse 1 [0, 2, 2, 53] = .error .MalformedCapability) ∧
     (([0, 2, 2, 53] : List Nat).length = expectedLength sbcSchema →
       (decodeFields sbcSchema.fields [0, 2, 2, 53]).any isEmptyBitmask = true →
       parse 1 [0, 2, 2, 53] = .error .EmptyCapabilitySet) ∧
     (([0, 2, 2, 53] : List Nat).length = expectedLength sbcSchema →
       (decodeFields sbcSchema.fields [0, 2, 2, 53]).any isEmptyBitmask = false →
       (decodeFields sbcSchema.fields [0, 2, 2, 53]).any isInvertedRange = true →
       parse 1 [0, 2, 2, 53] = .error .InvertedRange) ∧
     (∀ e (p : LocalPolicy) (r : CapabilityRecord) rs,
       r.codecId = 1 → r.raw = [0, 2, 2, 53] →
       parse 1 [0, 2, 2, 53] = .error e →
       parsedCandidates (r :: rs) = parsedCandidates rs ∧
       negotiate p (r :: rs) = negotiate p rs)) :=
  ⟨rfl, parse_validation_errors 1 sbcSchema rfl [0, 2, 2, 53]⟩

/-- A successfully selected field value lies inside the bounds advertised
by the capability field it was selected from. -/
theorem selectField_mem (fs : FieldSchema) (cf : CapField) (fp : FieldPolicy)
    (v : Nat) (h : selectField fs cf fp = .ok v) : fieldValueIn cf v := by
  cases fs with
  | bitmask pref =>
    cases cf with
    | rangeCap lo hi =>
      cases fp <;> exact absurd h (by simp [selectField])
    | bitmaskSet bits =>
      cases fp with
      | rangePol a b => exact absurd h (by simp [selectField])
      | bitmaskPol lb =>
        simp only [selectField] at h
        cases hf : pref.find? (fun u => (bits &&& lb).testBit u) with
        | none => rw [hf] at h; exact absurd h (by simp)
        | some w =>
          rw [hf] at h
          simp only [Except.ok.injEq] at h
          subst h
          have hw := List.find?_some hf
          simp only [fieldValueIn]
          rw [Nat.testBit_and] at hw
          exact (Bool.and_eq_true _ _).mp hw |>.left
  | range strat fv =>
    cases cf with
    | bitmaskSet bits =>
      cases fp <;> exact absurd h (by simp [selectField])
    | rangeCap lo hi =>
      cases fp with
      | bitmaskPol lb => exact absurd h (by simp [selectField])
      | rangePol llo lhi =>
        cases strat with
        | MAXIMIZE =>
          simp only [selectField] at h
          by_cases hc : lo ≤ min hi lhi
          · rw [if_pos hc] at h
            simp only [Except.ok.injEq] at h
            subst h
            exact ⟨hc, Nat.min_le_left _ _⟩
          · rw [if_neg hc] at h
            exact absurd h (by simp)
        | MINIMIZE =>
          simp only [selectField] at h
          by_cases hc : max lo llo ≤ hi
          · rw [if_pos hc] at h
            simp only [Except.ok.injEq] at h
            subst h
            exact ⟨Nat.le_max_left _ _, hc⟩
          · rw [if_neg hc] at h
            exact absurd h (by simp)
        | FIXED =>
          simp only [selectField] at h
          by_cases hc : lo ≤ fv ∧ fv ≤ hi ∧ llo ≤ fv ∧ fv ≤ lhi
          · rw [if_pos hc] at h
            simp only [Except.ok.injEq] at h
            subst h
            exact ⟨hc.1, hc.2.1⟩
          · rw [if_neg hc] at h
            exact absurd h (by simp)

/-- Successfully resolved field values are pointwise inside the bounds of
the capability fields they were resolved from. -/
theorem resolveFields_mem (fss : List FieldSchema) :
    ∀ (cfs : List CapField) (fps : List FieldPolicy) (vs : List Nat),
    resolveFields fss cfs fps = .ok vs → List.Forall₂ fieldValueIn cfs vs := by
  induction fss with
  | nil =>
    intro cfs fps vs h
    cases cfs with
    | nil =>
      cases fps with
      | nil =>
        simp only [resolveFields, Except.ok.injEq] at h
        subst h
        exact List.Forall₂.nil
      | cons q qs => exact absurd h (by simp [resolveFields])
    | cons c cs => exact absurd h (by simp [resolveFields])
  | cons f fs ih =>
    intro cfs fps vs h
    cases cfs with
    | nil => exact absurd h (by simp [resolveFields])
    | cons c cs =>
      cases fps with
      | nil => exact absurd h (by simp [resolveFields])
      | cons q qs =>
        simp only [resolveFields] at h
        cases hs : selectField f c q with
        | error e => rw [hs] at h; exact absurd h (by simp)
        | ok v =>
          rw [hs] at h
          cases hr : resolveFields fs cs qs with
          | error e => rw [hr] at h; exact absurd h (by simp)
          | ok ws =>
            rw [hr] at h
            simp only [Except.ok.injEq] at h
            subst h
            exact List.Forall₂.cons (selectField_mem f c q v hs) (ih cs qs ws hr)

/-- C4. Range containment: whenever `select` succeeds, every field value
of the returned Configuration lies within the bounds advertised by the
input ParsedCapability (bitmask membership for bitmask fields, min/max
interval for numeric fields); the per-field lemma covers each of the
schema strategies MAXIMIZE, MINIMIZE and FIXED. -/
theorem select_within_capability_bounds (cap : ParsedCapability)
    (p : LocalPolicy) (cfg : Configuration) (h : select cap p = .ok cfg) :
    cfg.codecId = cap.codecId ∧
    List.Forall₂ fieldValueIn cap.fields cfg.values := by
  unfold select at h
  cases hs : schema_of cap.codecId with
  | error e =>
    simp only [hs] at h
    exact absurd h (by simp)
  | ok sch =>
    simp only [hs] at h
    cases hr : resolveFields sch.fields cap.fields (p.fieldPols cap.codecId) with
    | error e =>
      simp only [hr] at h
      exact absurd h (by simp)
    | ok vs =>
      simp only [hr, Except.ok.injEq] at h
      subst h
      exact ⟨rfl, resolveFields_mem sch.fields cap.fields _ vs hr⟩

/-- A concrete local policy for the SBC witness: locally supported
sample-rate bits 0..3, channel-mode bits 0..1, bitpool up to 250. -/
def sbcPolicy : LocalPolicy :=
  { preferred := [], profilePriority := [],
    fieldPols := fun _ => [.bitmaskPol 15, .bitmaskPol 3, .rangePol 2 250] }

/-- Witness for C4: selection on the concrete SBC capability picks the
48kHz bit, the stereo bit, and the maximal bitpool 53, all in bounds. -/
theorem select_within_capability_bounds_witness :
    select sbcCap sbcPolicy = .ok ⟨1, [3, 1, 53]⟩ ∧
    ((Configuration.mk 1 [3, 1, 53]).codecId = sbcCap.codecId ∧
     List.Forall₂ fieldValueIn sbcCap.fields
       (Configuration.mk 1 [3, 1, 53]).values) :=
  ⟨rfl, select_within_capability_bounds sbcCap sbcPolicy ⟨1, [3, 1, 53]⟩ rfl⟩

/-- The lexicographic key order is total. -/
theorem lexLe4_total (x y : Nat × Nat × Nat × Nat) :
    lexLe4 x y ∨ lexLe4 y x := by
  unfold lexLe4
  omega

/-- The lexicographic key order is transitive. -/
theorem lexLe4_trans (x y z : Nat × Nat × Nat × Nat)
    (h1 : lexLe4 x y) (h2 : lexLe4 y z) : lexLe4 x z := by
  unfold lexLe4 at h1 h2 ⊢
  omega

/-- C7. Ranking is a total deterministic order: running `rank` twice on
the same candidate list yields identical sequences, the ranked list is a
permutation of the input sorted under the full key relation, and ties
under the ordering key (preference position, family priority, quality
tier) are broken by CodecId numeric order. -/
theorem rank_total_deterministic_order (p : LocalPolicy)
    (l : List (Nat × ParsedCapability)) :
    rank p l = rank p l ∧
    (rankPairs p l).Perm l ∧
    (rankPairs p l).Sorted (rankRel p) ∧
    (rankPairs p l).Pairwise (fun a b =>
      prefPos p a.1 = prefPos p b.1 → famRank p a.1 = famRank p b.1 →
      qualityRank a.1 = qualityRank b.1 → a.1 ≤ b.1) := by
  haveI : IsTotal (Nat × ParsedCapability) (rankRel p) :=
    ⟨fun a b => lexLe4_total _ _⟩
  haveI : IsTrans (Nat × ParsedCapability) (rankRel p) :=
    ⟨fun a b c => lexLe4_trans _ _ _⟩
  have hs : (rankPairs p l).Sorted (rankRel p) :=
    List.sorted_insertionSort _ _
  refine ⟨rfl, List.perm_insertionSort _ _, hs, ?_⟩
  refine hs.imp ?_
  intro a b hab h1 h2 h3
  simp only [rankRel, lexLe4, rankKey] at hab
  omega

/-- The selection loop returns nothing exactly when every candidate in
the list fails selection. -/
theorem selectFirst_eq_none_iff (p : LocalPolicy)
    (l : List (Nat × ParsedCapability)) :
    selectFirst p l = none ↔
      ∀ c ∈ l, ∃ e, select c.2 p = .error e := by
  induction l with
  | nil => simp [selectFirst]
  | cons c cs ih =>
    rw [selectFirst]
    cases hs : select c.2 p with
    | ok cfg =>
      simp only
      constructor
      · intro h
        exact absurd h (by simp)
      · intro h
        obtain ⟨e, he⟩ := h c (List.mem_cons_self c cs)
        rw [hs] at he
        exact absurd he (by simp)
    | error e =>
      simp only
      rw [ih]
      constructor
      · intro h c' hc'
        rcases List.mem_cons.mp hc' with rfl | hm
        · exact ⟨e, hs⟩
        · exact h c' hm
      · intro h c' hc'
        exact h c' (List.mem_cons_of_mem _ hc')

/-- C5. The session ends `Failed` exactly when either the candidate list
is empty after parsing (reason `NoCandidates`, covering the no-records
case) or every candidate fails selection (reason
`AllCandidatesIncompatible`); the parse failure of a single record never by
itself aborts the session. -/
theorem failed_iff_no_candidate_succeeds (p : LocalPolicy)
    (records : List CapabilityRecord) :
    (negotiate p records = .Failed .NoCandidates ↔
      parsedCandidates records = []) ∧
    (negotiate p records = .Failed .AllCandidatesIncompatible ↔
      (parsedCandidates records ≠ [] ∧
       ∀ c ∈ parsedCandidates records, ∃ e, select c.2 p = .error e)) ∧
    ((∃ reason, negotiate p records = .Failed reason) ↔
      (parsedCandidates records = [] ∨
       ∀ c ∈ parsedCandidates records, ∃ e, select c.2 p = .error e)) ∧
    (∀ r rs e, records = r :: rs → parse r.codecId r.raw = .error e →
      negotiate p records = negotiate p rs) := by
  refine ⟨?_, ?_, ?_, ?_⟩
  · unfold negotiate
    cases hc : parsedCandidates records with
    | nil => simp
    | cons c cs =>
      cases hsel : selectFirst p (rankPairs p (c :: cs)) with
      | some cfg => simp [hsel]
      | none => simp [hsel]
  · unfold negotiate
    cases hc : parsedCandidates records with
    | nil => simp
    | cons c cs =>
      have hmem : ∀ x, x ∈ rankPairs p (c :: cs) ↔ x ∈ c :: cs := by
        intro x
        unfold rankPairs
        exact List.mem_insertionSort _
      cases hsel : selectFirst p (rankPairs p (c :: cs)) with
      | some cfg =>
        simp only [hsel]
        constructor
        · intro h
          exact absurd h (by simp)
        · rintro ⟨-, hall⟩
          have hnone : selectFirst p (rankPairs p (c :: cs)) = none :=
            (selectFirst_eq_none_iff _ _).mpr
              (fun x hx => hall x ((hmem x).mp hx))
          rw [hsel] at hnone
          exact absurd hnone (by simp)
      | none =>
        simp only [hsel]
        constructor
        · intro _
          refine ⟨by simp, ?_⟩
          intro x hx
          exact (selectFirst_eq_none_iff _ _).mp hsel x ((hmem x).mpr hx)
        · intro _
          trivial
  · unfold negotiate
    cases hc : parsedCandidates records with
    | nil =>
      constructor
      · intro _
        exact Or.inl rfl
      · intro _
        exact ⟨.NoCandidates, rfl⟩
    | cons c cs =>
      have hmem : ∀ x, x ∈ rankPairs p (c :: cs) ↔ x ∈ c :: cs := by
        intro x
        unfold rankPairs
        exact List.mem_insertionSort _
      cases hsel : selectFirst p (rankPairs p (c :: cs)) with
      | some cfg =>
        simp only [hsel]
        constructor
        · rintro ⟨reason, h⟩
          exact absurd h (by simp)
        · rintro (h | hall)
          · exact absurd h (by simp)
          · have hnone : selectFirst p (rankPairs p (c :: cs)) = none :=
              (selectFirst_eq_none_iff _ _).mpr
                (fun x hx => hall x ((hmem x).mp hx))
            rw [hsel] at hnone
            exact absurd hnone (by simp)
      | none =>
        simp only [hsel]
        constructor
        · intro _
          refine Or.inr ?_
          intro x hx
          exact (selectFirst_eq_none_iff _ _).mp hsel x ((hmem x).mpr hx)
        · intro _
          exact ⟨.AllCandidatesIncompatible, rfl⟩
  · rintro r rs e rfl hf
    exact negotiate_skip_of_parse_error p r rs e hf

end BtCodec
